import Mathlib

/-!
# Verification of the KPU virtual CPU (`src/lib.rs`)

Shallow embedding of the KPU core: a five-register file of single bytes, a
1024-byte memory split into a 256-byte text segment (64 four-byte instruction
slots) and a 768-byte data segment, a fixed-width instruction codec, a loader
and a fetch-decode-execute step function.

Machine bytes (`u8`) are modelled as `Nat` with `% 256` applied wherever the
source stores a `u8`-typed value; memory is a total function `Nat → Nat` over
physical addresses `0..1023`; fallible operations (`panic!` on out-of-bounds
indexing, undefined behaviour of `transmute` on invalid encodings) are
modelled with `Option`.
-/

namespace Kpu0

/-- `MEM_SIZE` from the source: total bytes of backing memory. -/
def MEM_SIZE : Nat := 1024

/-- `TEXT_SIZE` from the source: byte capacity of the text segment. -/
def TEXT_SIZE : Nat := MEM_SIZE / 4

/-- `DATA_SIZE` from the source: byte capacity of the data segment. -/
def DATA_SIZE : Nat := MEM_SIZE - TEXT_SIZE

/-- `OP_SIZE` from the source: `size_of::<Op>() = 4` bytes per instruction. -/
def OP_SIZE : Nat := 4

/-- Number of instruction slots in the text segment (`TEXT_SIZE / OP_SIZE`). -/
def TEXT_SLOTS : Nat := TEXT_SIZE / OP_SIZE

/-- The register names `Reg` from the source. -/
inductive Reg : Type
  | R0
  | R1
  | R2
  | R3
  | IP
deriving DecidableEq, Repr

/-- Discriminant byte of a `Reg` value (Rust assigns 0,1,2,3,4 in order). -/
def Reg.toByte : Reg → Nat
  | .R0 => 0
  | .R1 => 1
  | .R2 => 2
  | .R3 => 3
  | .IP => 4

/-- Reading a byte back as a `Reg`: `transmute` is only defined on the five
discriminants 0..4; any other byte is undefined behaviour, modelled `none`. -/
def Reg.ofByte : Nat → Option Reg
  | 0 => some .R0
  | 1 => some .R1
  | 2 => some .R2
  | 3 => some .R3
  | 4 => some .IP
  | _ => none

/-- The instruction set `Op` from the source, with the same variants and
field order. Byte-valued fields (`u8` in the source) are `Nat` here. -/
inductive Op : Type
  | Nop
  | MoveRegImm (dst : Reg) (imm : Nat)
  | MoveRegReg (dst : Reg) (src : Reg)
  | MoveMemImm (mem_high mem_low imm : Nat)
  | MoveMemReg (mem_high mem_low : Nat) (src : Reg)
  | MoveRegMem (dst : Reg) (mem_high mem_low : Nat)
  | Halt
deriving DecidableEq, Repr

/-- `Op::bytes`: the 4-byte `repr(u8)` layout, tag byte first then the fields
in declaration order, exactly as the opcode tables in the source document.
The source obtains this via `transmute`, which leaves the padding bytes of
the shorter variants unspecified; we pin them to 0. `% 256` records that each
field has type `u8` in the source. -/
def Op.bytes : Op → List Nat
  | .Nop => [0x00, 0, 0, 0]
  | .MoveRegImm dst imm => [0x10, dst.toByte, imm % 256, 0]
  | .MoveRegReg dst src => [0x11, dst.toByte, src.toByte, 0]
  | .MoveMemImm hi lo imm => [0x20, hi % 256, lo % 256, imm % 256]
  | .MoveMemReg hi lo src => [0x21, hi % 256, lo % 256, src.toByte]
  | .MoveRegMem dst hi lo => [0x22, dst.toByte, hi % 256, lo % 256]
  | .Halt => [0xFF, 0, 0, 0]

/-- Well-formedness of an `Op` value: every byte-valued field fits in a `u8`,
which the Rust types (`imm: u8`, `mem_high: u8`, `mem_low: u8`) guarantee. -/
def Op.Wf : Op → Prop
  | .Nop => True
  | .MoveRegImm _ imm => imm < 256
  | .MoveRegReg _ _ => True
  | .MoveMemImm hi lo imm => hi < 256 ∧ lo < 256 ∧ imm < 256
  | .MoveMemReg hi lo _ => hi < 256 ∧ lo < 256
  | .MoveRegMem _ hi lo => hi < 256 ∧ lo < 256
  | .Halt => True

instance : DecidablePred Op.Wf := fun op => by
  cases op <;> simp only [Op.Wf] <;> infer_instance

/-- The decoder applied by `Kpu::step`: `transmute(*op_bytes)` reinterprets
the 4 slot bytes as an `Op`. Defined (`some`) exactly when the tag byte is
one of the seven discriminants and every register byte is a valid `Reg`
discriminant; anything else is undefined behaviour, modelled `none`. -/
def decode : List Nat → Option Op
  | [tag, b1, b2, b3] =>
    if tag = 0x00 then some .Nop
    else if tag = 0x10 then (Reg.ofByte b1).map fun dst => .MoveRegImm dst b2
    else if tag = 0x11 then
      (Reg.ofByte b1).bind fun dst => (Reg.ofByte b2).map fun src => .MoveRegReg dst src
    else if tag = 0x20 then some (.MoveMemImm b1 b2 b3)
    else if tag = 0x21 then (Reg.ofByte b3).map fun src => .MoveMemReg b1 b2 src
    else if tag = 0x22 then (Reg.ofByte b1).map fun dst => .MoveRegMem dst b2 b3
    else if tag = 0xFF then some .Halt
    else none
  | _ => none

/-- `u16::from_be_bytes([hi, lo])` on two `u8` values, as a `Nat`. -/
def be16 (hi lo : Nat) : Nat := (hi % 256) * 256 + lo % 256

/-- `LoadError` from the source. -/
inductive LoadError : Type
  | Size (size_of_loaded_program : Nat)
deriving DecidableEq, Repr

/-- The `Kpu` state: the five `u8` registers and the physical 1024-byte
buffer `mem` (text segment at addresses `0..255`, data segment at
`256..1023`, exactly as `Memory`'s two views alias the backing buffer). -/
structure Kpu : Type where
  r0 : Nat
  r1 : Nat
  r2 : Nat
  r3 : Nat
  ip : Nat
  mem : Nat → Nat

/-- `Kpu::new` / `Kpu::default`: zeroed registers and zero-filled memory. -/
def Kpu.new : Kpu :=
  { r0 := 0, r1 := 0, r2 := 0, r3 := 0, ip := 0, mem := fun _ => 0 }

/-- `Kpu::reset`: zero every register and fill the whole buffer with 0. -/
def Kpu.reset (_ : Kpu) : Kpu :=
  { r0 := 0, r1 := 0, r2 := 0, r3 := 0, ip := 0, mem := fun _ => 0 }

/-- Store one byte at a physical address. -/
def writeByte (m : Nat → Nat) (a v : Nat) : Nat → Nat :=
  fun j => if j = a then v else m j

/-- `copy_from_slice` of a run of bytes starting at physical address `a`. -/
def writeBytesAt (m : Nat → Nat) (a : Nat) : List Nat → (Nat → Nat)
  | [] => m
  | b :: rest => writeBytesAt (writeByte m a b) (a + 1) rest

/-- The loader's copy loop: `ops.iter().zip(self.mem.text.iter_mut())`
writes each instruction's 4 encoded bytes into successive text slots,
stopping (as `zip` does) if the 64 slots run out. -/
def writeOps (m : Nat → Nat) (i : Nat) : List Op → (Nat → Nat)
  | [] => m
  | op :: rest =>
    if i < TEXT_SLOTS then writeOps (writeBytesAt m (OP_SIZE * i) op.bytes) (i + 1) rest else m

/-- `Kpu::load`: rejects a program whose encoded byte size
`ops.len() * size_of::<u32>()` exceeds `TEXT_SIZE`, reporting that size;
otherwise copies the encodings into the text slots. The pair returns the
state after the call (the source mutates `self`) with the error, if any. -/
def Kpu.load (k : Kpu) (ops : List Op) : Kpu × Option LoadError :=
  let program_size := ops.length * 4
  if program_size > TEXT_SIZE then (k, some (LoadError.Size program_size))
  else ({ k with mem := writeOps k.mem 0 ops }, none)

/-- `Kpu::reg`: read a register. -/
def Kpu.reg (k : Kpu) : Reg → Nat
  | .R0 => k.r0
  | .R1 => k.r1
  | .R2 => k.r2
  | .R3 => k.r3
  | .IP => k.ip

/-- `Kpu::reg_mut` used as the target of an assignment: store a `u8`. -/
def Kpu.setReg (k : Kpu) : Reg → Nat → Kpu
  | .R0, v => { k with r0 := v % 256 }
  | .R1, v => { k with r1 := v % 256 }
  | .R2, v => { k with r2 := v % 256 }
  | .R3, v => { k with r3 := v % 256 }
  | .IP, v => { k with ip := v % 256 }

/-- `self.reg.ip.full += 1` at the end of a non-Halt step: `u8` increment
(wrapping modulo 256; the source carries a TODO about this overflow). -/
def Kpu.incIp (k : Kpu) : Kpu := { k with ip := (k.ip + 1) % 256 }

/-- `self.mem.data[offset] = v`: data bytes live at physical address
`TEXT_SIZE + offset`; `v` is `u8`-typed in the source. -/
def Kpu.writeData (k : Kpu) (offset v : Nat) : Kpu :=
  { k with mem := writeByte k.mem (TEXT_SIZE + offset) (v % 256) }

/-- The 4 bytes of text slot `i` (physical addresses `4*i .. 4*i+3`). -/
def readSlot (m : Nat → Nat) (i : Nat) : List Nat :=
  [m (OP_SIZE * i), m (OP_SIZE * i + 1), m (OP_SIZE * i + 2), m (OP_SIZE * i + 3)]

/-- The fetch-decode part of `Kpu::step`: `self.mem.text[ip]` panics
(`none`) when `ip` is not a valid slot index, and the `transmute` of the
slot bytes is undefined (`none`) on invalid encodings. -/
def Kpu.fetch (k : Kpu) : Option Op :=
  if k.ip < TEXT_SLOTS then decode (readSlot k.mem k.ip) else none

/-- `Kpu::step`: fetch and decode the slot at `IP`, execute the effect,
then increment `IP` unless the instruction was `Halt` (which returns early,
leaving all state unchanged). A data access `self.mem.data[offset]` with
`offset ≥ DATA_SIZE` panics — the `[u8; DATA_SIZE]` array's bounds check —
modelled `none`. Returns the executed instruction with the new state. -/
def Kpu.step (k : Kpu) : Option (Op × Kpu) :=
  match k.fetch with
  | none => none
  | some op =>
    match op with
    | .MoveMemImm hi lo imm =>
      let offset := be16 hi lo
      if offset < DATA_SIZE then some (op, (k.writeData offset imm).incIp) else none
    | .MoveMemReg hi lo src =>
      let offset := be16 hi lo
      if offset < DATA_SIZE then some (op, (k.writeData offset (k.reg src)).incIp) else none
    | .MoveRegImm dst imm => some (op, (k.setReg dst imm).incIp)
    | .MoveRegReg dst src => some (op, (k.setReg dst (k.reg src)).incIp)
    | .MoveRegMem dst hi lo =>
      let offset := be16 hi lo
      if offset < DATA_SIZE then
        some (op, (k.setReg dst (k.mem (TEXT_SIZE + offset))).incIp)
      else none
    | .Halt => some (.Halt, k)
    | .Nop => some (op, k.incIp)

/-- Iterated stepping: the state after `n` successful calls to `step`. -/
def stepN (k : Kpu) : Nat → Option Kpu
  | 0 => some k
  | n + 1 => (stepN k n).bind fun s => s.step.map Prod.snd

/-- Instructions whose execute phase writes the `IP` register itself
(destination register `IP`), before the final increment. -/
def Op.writesIP : Op → Bool
  | .MoveRegImm .IP _ => true
  | .MoveRegReg .IP _ => true
  | .MoveRegMem .IP _ _ => true
  | _ => false

/-- The 16-bit data offset consumed by the three memory instructions. -/
def Op.memOffset : Op → Option Nat
  | .MoveMemImm hi lo _ => some (be16 hi lo)
  | .MoveMemReg hi lo _ => some (be16 hi lo)
  | .MoveRegMem _ hi lo => some (be16 hi lo)
  | _ => none

/-- The concrete program of the reference driver `api_test/src/main.rs`. -/
def progC5 : List Op :=
  [.MoveRegImm .R0 3, .MoveRegReg .R1 .R0, .Nop, .MoveMemImm 0 19 42,
   .MoveMemReg 0 19 .R1, .MoveRegMem .R3 0 19, .Halt]

/-- A fresh KPU with `progC5` loaded. -/
def kC5 : Kpu := (Kpu.new.load progC5).1

/-- The state of `kC5` after its first (successful) step. -/
def kC5s1 : Kpu := ((kC5.step).map Prod.snd).getD Kpu.new

/-- A fresh KPU loaded with a single instruction whose destination register
is `IP` itself (`move ip, 7`), a legal `Op` value. -/
def kJmp : Kpu := (Kpu.new.load [Op.MoveRegImm Reg.IP 7]).1

/-- The state of `kJmp` after its first (successful) step. -/
def kJmp1 : Kpu := ((kJmp.step).map Prod.snd).getD Kpu.new

/-- A fresh KPU loaded with `move [768], 42`: its data offset
`be16 3 0 = 768` is one past the last valid data index. -/
def kOob : Kpu := (Kpu.new.load [Op.MoveMemImm 3 0 42]).1

/-- A fresh KPU loaded with 64 `Nop`s: the largest program that fits. -/
def kNops : Kpu := (Kpu.new.load (List.replicate 64 Op.Nop)).1

/-! ## Basic lemmas about the memory model -/

theorem TEXT_SIZE_eq : TEXT_SIZE = 256 := rfl

theorem DATA_SIZE_eq : DATA_SIZE = 768 := rfl

theorem OP_SIZE_eq : OP_SIZE = 4 := rfl

theorem TEXT_SLOTS_eq : TEXT_SLOTS = 64 := rfl

theorem bytes_length (op : Op) : op.bytes.length = 4 := by
  cases op <;> rfl

theorem bytes_eta (op : Op) :
    [op.bytes.getD 0 0, op.bytes.getD 1 0, op.bytes.getD 2 0, op.bytes.getD 3 0] = op.bytes := by
  cases op <;> rfl

theorem writeBytesAt_eq (bs : List Nat) : ∀ (m : Nat → Nat) (a j : Nat),
    writeBytesAt m a bs j =
      if a ≤ j ∧ j < a + bs.length then bs.getD (j - a) 0 else m j := by
  induction bs with
  | nil =>
    intro m a j
    rw [writeBytesAt, if_neg (by simp only [List.length_nil]; omega)]
  | cons b rest ih =>
    intro m a j
    rw [writeBytesAt, ih]
    by_cases hj : j = a
    · subst hj
      rw [if_neg (by omega), if_pos (by simp only [List.length_cons]; omega)]
      simp [writeByte]
    · by_cases h1 : a + 1 ≤ j ∧ j < a + 1 + rest.length
      · rw [if_pos h1, if_pos (by simp only [List.length_cons]; omega)]
        have hd : j - a = (j - (a + 1)) + 1 := by omega
        rw [hd, List.getD_cons_succ]
      · rw [if_neg h1, if_neg (by simp only [List.length_cons]; omega)]
        simp [writeByte, hj]

theorem writeOps_frame_lo (ops : List Op) : ∀ (m : Nat → Nat) (i j : Nat),
    j < OP_SIZE * i → writeOps m i ops j = m j := by
  induction ops with
  | nil => intro m i j _; rfl
  | cons op rest ih =>
    intro m i j hj
    rw [writeOps]
    split
    · rw [ih _ _ _ (by simp only [OP_SIZE_eq] at *; omega)]
      rw [writeBytesAt_eq, if_neg (by simp only [OP_SIZE_eq] at *; omega)]
    · rfl

theorem writeOps_frame_hi (ops : List Op) : ∀ (m : Nat → Nat) (i j : Nat),
    OP_SIZE * i + OP_SIZE * ops.length ≤ j → writeOps m i ops j = m j := by
  induction ops with
  | nil => intro m i j _; rfl
  | cons op rest ih =>
    intro m i j hj
    simp only [List.length_cons] at hj
    rw [writeOps]
    split
    · rw [ih _ _ _ (by simp only [OP_SIZE_eq] at *; omega)]
      rw [writeBytesAt_eq, if_neg (by rw [bytes_length]; simp only [OP_SIZE_eq] at *; omega)]
    · rfl

theorem readSlot_writeBytesAt (m : Nat → Nat) (i : Nat) (op : Op) :
    readSlot (writeBytesAt m (OP_SIZE * i) op.bytes) i = op.bytes := by
  unfold readSlot
  rw [writeBytesAt_eq, writeBytesAt_eq, writeBytesAt_eq, writeBytesAt_eq, bytes_length]
  rw [if_pos (by omega), if_pos (by omega), if_pos (by omega), if_pos (by omega)]
  have e0 : OP_SIZE * i - OP_SIZE * i = 0 := by omega
  have e1 : OP_SIZE * i + 1 - OP_SIZE * i = 1 := by omega
  have e2 : OP_SIZE * i + 2 - OP_SIZE * i = 2 := by omega
  have e3 : OP_SIZE * i + 3 - OP_SIZE * i = 3 := by omega
  rw [e0, e1, e2, e3, bytes_eta]

theorem writeOps_slot (ops : List Op) : ∀ (m : Nat → Nat) (i s : Nat),
    s < ops.length → i + ops.length ≤ TEXT_SLOTS →
    readSlot (writeOps m i ops) (i + s) = (ops.getD s Op.Nop).bytes := by
  induction ops with
  | nil => intro m i s hs _; simp at hs
  | cons op rest ih =>
    intro m i s hs hcap
    simp only [List.length_cons] at hs hcap
    rw [writeOps, if_pos (by omega)]
    cases s with
    | zero =>
      rw [Nat.add_zero, List.getD_cons_zero]
      unfold readSlot
      rw [writeOps_frame_lo rest _ _ _ (by simp only [OP_SIZE_eq]; omega),
        writeOps_frame_lo rest _ _ _ (by simp only [OP_SIZE_eq]; omega),
        writeOps_frame_lo rest _ _ _ (by simp only [OP_SIZE_eq]; omega),
        writeOps_frame_lo rest _ _ _ (by simp only [OP_SIZE_eq]; omega)]
      exact readSlot_writeBytesAt m i op
    | succ s' =>
      have hrw : i + (s' + 1) = (i + 1) + s' := by omega
      rw [hrw, List.getD_cons_succ]
      exact ih _ (i + 1) s' (by omega) (by omega)

/-! ## Lemmas about the step function -/

theorem fetch_ip_lt (k : Kpu) (op : Op) (h : k.fetch = some op) : k.ip < TEXT_SLOTS := by
  unfold Kpu.fetch at h
  by_contra hip
  rw [if_neg hip] at h
  exact Option.noConfusion h

theorem setReg_ip_eq (k : Kpu) (dst : Reg) (v : Nat) (h : dst ≠ Reg.IP) :
    (k.setReg dst v).ip = k.ip := by
  cases dst <;> first | rfl | exact absurd rfl h

theorem setReg_mem_eq (k : Kpu) (dst : Reg) (v : Nat) : (k.setReg dst v).mem = k.mem := by
  cases dst <;> rfl

/-- Inversion on a successful `step`: the returned instruction is the decoded
one; `Halt` returns the state unchanged; any other instruction that does not
write `IP` ends with `IP` incremented by 1 (mod 256); and no instruction
writes any text-segment byte. -/
theorem step_inv (k : Kpu) (op : Op) (k' : Kpu) (h : k.step = some (op, k')) :
    k.fetch = some op ∧
    (op = Op.Halt → k' = k) ∧
    (op ≠ Op.Halt → op.writesIP = false → k'.ip = (k.ip + 1) % 256) ∧
    (∀ a : Nat, a < TEXT_SIZE → k'.mem a = k.mem a) := by
  unfold Kpu.step at h
  cases hf : k.fetch with
  | none => rw [hf] at h; exact Option.noConfusion h
  | some op0 =>
    rw [hf] at h
    cases op0 with
    | Nop =>
      dsimp only at h
      simp only [Option.some.injEq, Prod.mk.injEq] at h
      obtain ⟨rfl, rfl⟩ := h
      exact ⟨rfl, fun hh => Op.noConfusion hh, fun _ _ => rfl, fun a _ => rfl⟩
    | Halt =>
      dsimp only at h
      simp only [Option.some.injEq, Prod.mk.injEq] at h
      obtain ⟨rfl, rfl⟩ := h
      exact ⟨rfl, fun _ => rfl, fun hh => absurd rfl hh, fun a _ => rfl⟩
    | MoveRegImm dst imm =>
      dsimp only at h
      simp only [Option.some.injEq, Prod.mk.injEq] at h
      obtain ⟨rfl, rfl⟩ := h
      refine ⟨rfl, fun hh => Op.noConfusion hh, fun _ hw => ?_, fun a _ => ?_⟩
      · have hdst : dst ≠ Reg.IP := by
          intro hd; subst hd; exact Bool.noConfusion hw
        show ((k.setReg dst imm).ip + 1) % 256 = (k.ip + 1) % 256
        rw [setReg_ip_eq k dst imm hdst]
      · show (k.setReg dst imm).mem a = k.mem a
        rw [setReg_mem_eq]
    | MoveRegReg dst src =>
      dsimp only at h
      simp only [Option.some.injEq, Prod.mk.injEq] at h
      obtain ⟨rfl, rfl⟩ := h
      refine ⟨rfl, fun hh => Op.noConfusion hh, fun _ hw => ?_, fun a _ => ?_⟩
      · have hdst : dst ≠ Reg.IP := by
          intro hd; subst hd; exact Bool.noConfusion hw
        show ((k.setReg dst (k.reg src)).ip + 1) % 256 = (k.ip + 1) % 256
        rw [setReg_ip_eq k dst _ hdst]
      · show (k.setReg dst (k.reg src)).mem a = k.mem a
        rw [setReg_mem_eq]
    | MoveRegMem dst hi lo =>
      dsimp only at h
      split at h
      · simp only [Option.some.injEq, Prod.mk.injEq] at h
        obtain ⟨rfl, rfl⟩ := h
        refine ⟨rfl, fun hh => Op.noConfusion hh, fun _ hw => ?_, fun a _ => ?_⟩
        · have hdst : dst ≠ Reg.IP := by
            intro hd; subst hd; exact Bool.noConfusion hw
          show ((k.setReg dst _).ip + 1) % 256 = (k.ip + 1) % 256
          rw [setReg_ip_eq k dst _ hdst]
        · show (k.setReg dst _).mem a = k.mem a
          rw [setReg_mem_eq]
      · exact Option.noConfusion h
    | MoveMemImm hi lo imm =>
      dsimp only at h
      split at h
      · simp only [Option.some.injEq, Prod.mk.injEq] at h
        obtain ⟨rfl, rfl⟩ := h
        refine ⟨rfl, fun hh => Op.noConfusion hh, fun _ _ => rfl, fun a ha => ?_⟩
        show writeByte k.mem (TEXT_SIZE + be16 hi lo) (imm % 256) a = k.mem a
        rw [writeByte, if_neg (by simp only [TEXT_SIZE_eq] at *; omega)]
      · exact Option.noConfusion h
    | MoveMemReg hi lo src =>
      dsimp only at h
      split at h
      · simp only [Option.some.injEq, Prod.mk.injEq] at h
        obtain ⟨rfl, rfl⟩ := h
        refine ⟨rfl, fun hh => Op.noConfusion hh, fun _ _ => rfl, fun a ha => ?_⟩
        show writeByte k.mem (TEXT_SIZE + be16 hi lo) (k.reg src % 256) a = k.mem a
        rw [writeByte, if_neg (by simp only [TEXT_SIZE_eq] at *; omega)]
      · exact Option.noConfusion h

/-! ## Claim theorems -/

/-- Claim C1: decoding the 4-byte encoding of any instruction variant (as
produced by `Op::bytes` and consumed by the executor's decode) yields an
instruction whose variant and semantic fields (registers, immediates, 16-bit
big-endian offsets) are exactly those of the original. The hypothesis records
that every byte field fits in a `u8`, which the Rust field types enforce. -/
theorem decode_bytes_roundtrip (v : Op) (h : v.Wf) : decode v.bytes = some v := by
  cases v with
  | Nop => rfl
  | Halt => rfl
  | MoveRegImm dst imm =>
    have himm : imm % 256 = imm := Nat.mod_eq_of_lt h
    cases dst <;> simp [Op.bytes, decode, Reg.toByte, Reg.ofByte, himm]
  | MoveRegReg dst src =>
    cases dst <;> cases src <;> rfl
  | MoveMemImm hi lo imm =>
    obtain ⟨h1, h2, h3⟩ := h
    simp [Op.bytes, decode, Nat.mod_eq_of_lt h1, Nat.mod_eq_of_lt h2, Nat.mod_eq_of_lt h3]
  | MoveMemReg hi lo src =>
    obtain ⟨h1, h2⟩ := h
    cases src <;>
      simp [Op.bytes, decode, Reg.toByte, Reg.ofByte, Nat.mod_eq_of_lt h1, Nat.mod_eq_of_lt h2]
  | MoveRegMem dst hi lo =>
    obtain ⟨h1, h2⟩ := h
    cases dst <;>
      simp [Op.bytes, decode, Reg.toByte, Reg.ofByte, Nat.mod_eq_of_lt h1, Nat.mod_eq_of_lt h2]

/-- Witness for C1 at a concrete instruction. -/
theorem decode_bytes_roundtrip_witness :
    Op.Wf (Op.MoveMemImm 0 19 42) ∧
      decode (Op.MoveMemImm 0 19 42).bytes = some (Op.MoveMemImm 0 19 42) :=
  ⟨by decide, decode_bytes_roundtrip (Op.MoveMemImm 0 19 42) (by decide)⟩

/-- Claim C2: loading a program of exactly 64 instructions (encoded size 256
bytes, the text segment's capacity) succeeds, while a 65-instruction program
fails with `LoadError::Size` carrying the program's encoded byte size. -/
theorem load_capacity_boundary (k : Kpu) (ops big : List Op)
    (h64 : ops.length = 64) (h65 : big.length = 65) :
    (k.load ops).2 = none ∧
    (k.load big).2 = some (LoadError.Size (big.length * 4)) := by
  constructor
  · have hc : ¬ (ops.length * 4 > TEXT_SIZE) := by rw [h64, TEXT_SIZE_eq]; omega
    simp only [Kpu.load]
    rw [if_neg hc]
  · have hc : big.length * 4 > TEXT_SIZE := by rw [h65, TEXT_SIZE_eq]; omega
    simp only [Kpu.load]
    rw [if_pos hc]

/-- Witness for C2 at concrete 64- and 65-instruction programs. -/
theorem load_capacity_boundary_witness :
    (Kpu.new.load (List.replicate 64 Op.Nop)).2 = none ∧
    (Kpu.new.load (List.replicate 65 Op.Nop)).2
      = some (LoadError.Size ((List.replicate 65 Op.Nop).length * 4)) :=
  load_capacity_boundary Kpu.new _ _ (by decide) (by decide)

/-- Claim C3: for every program whose encoded size exceeds the text
segment's byte capacity and every starting state, `load` returns the
`LoadError::Size` error and returns the state — registers and the whole
memory buffer — exactly as it was. -/
theorem load_oversize_atomic (k : Kpu) (ops : List Op) (h : ops.length * 4 > TEXT_SIZE) :
    k.load ops = (k, some (LoadError.Size (ops.length * 4))) := by
  simp only [Kpu.load]
  rw [if_pos h]

/-- Witness for C3 at a concrete oversized program. -/
theorem load_oversize_atomic_witness :
    Kpu.new.load (List.replicate 65 Op.Halt)
      = (Kpu.new, some (LoadError.Size ((List.replicate 65 Op.Halt).length * 4))) :=
  load_oversize_atomic Kpu.new _ (by decide)

/-- Claim C5: the concrete `api_test` program, loaded into a fresh KPU and
stepped sequentially: after step 1, R0 = 3; after step 2, R1 = 3; step 3
(the `Nop`) changes nothing beyond the standard IP advance; after step 4,
data byte 19 is 42; after step 5, data byte 19 is 3; after step 6, R3 = 3;
step 7 returns `Halt` and leaves IP unchanged at 6. -/
theorem api_test_trace :
    (Kpu.new.load progC5).2 = none ∧
    (stepN kC5 1).map Kpu.r0 = some 3 ∧
    (stepN kC5 2).map Kpu.r1 = some 3 ∧
    stepN kC5 3 = (stepN kC5 2).map Kpu.incIp ∧
    (stepN kC5 4).map (fun k => k.mem (TEXT_SIZE + 19)) = some 42 ∧
    (stepN kC5 5).map (fun k => k.mem (TEXT_SIZE + 19)) = some 3 ∧
    (stepN kC5 6).map Kpu.r3 = some 3 ∧
    ((stepN kC5 6).bind Kpu.step).map (fun p => (p.1, p.2.ip)) = some (Op.Halt, 6) ∧
    (stepN kC5 6).map Kpu.ip = some 6 :=
  ⟨rfl, by decide, by decide, rfl, by decide, by decide, by decide, by decide, by decide⟩

/-- Claim C6: from any state, `reset` produces all-zero registers and an
all-zero memory buffer — the state of a freshly constructed `Kpu`. -/
theorem reset_fresh (k : Kpu) :
    k.reset = Kpu.new ∧ k.reset.r0 = 0 ∧ k.reset.r1 = 0 ∧ k.reset.r2 = 0 ∧
      k.reset.r3 = 0 ∧ k.reset.ip = 0 ∧ ∀ a : Nat, k.reset.mem a = 0 :=
  ⟨rfl, rfl, rfl, rfl, rfl, rfl, fun _ => rfl⟩

/-- Witness for C6 at a concrete (loaded) state. -/
theorem reset_fresh_witness : kC5.reset = Kpu.new := (reset_fresh kC5).1

/-- Claim C10: a successful `step` never modifies the text segment — every
byte at a physical address below `TEXT_SIZE` is unchanged. -/
theorem step_text_frame (k : Kpu) (op : Op) (k' : Kpu) (h : k.step = some (op, k'))
    (a : Nat) (ha : a < TEXT_SIZE) : k'.mem a = k.mem a :=
  (step_inv k op k' h).2.2.2 a ha

/-- Witness for C10 at a concrete step of the `api_test` program. -/
theorem step_text_frame_witness : kC5s1.mem 0 = kC5.mem 0 :=
  step_text_frame kC5 (Op.MoveRegImm Reg.R0 3) kC5s1 rfl 0 (by decide)

/-- Counterexample to C4 as stated: `move ip, 7` is a valid non-Halt
instruction, yet after executing it from a fresh state (IP = 0), IP is 8 —
the executed effect wrote IP before the final increment — not `0 + 1`. -/
theorem step_ip_increment_counterexample :
    kJmp.step = some (Op.MoveRegImm Reg.IP 7, kJmp1) ∧
    Op.MoveRegImm Reg.IP 7 ≠ Op.Halt ∧
    kJmp.ip = 0 ∧ kJmp1.ip = 8 ∧ ¬ (kJmp1.ip = kJmp.ip + 1) :=
  ⟨rfl, by decide, rfl, rfl, by decide⟩

/-- Claim C4, amended: when the slot at IP decodes, a `Halt` leaves the
whole state unchanged (so every later `step` again returns `Halt`), and a
non-Halt instruction that does not itself write the IP register leaves IP
exactly one greater than before the call. (As stated the claim fails for
the non-Halt instructions whose destination register is `IP`.) -/
theorem step_ip_advance_amended (k : Kpu) (op : Op) (k' : Kpu) (h : k.step = some (op, k')) :
    (op = Op.Halt → k' = k ∧ k'.step = some (Op.Halt, k')) ∧
    (op ≠ Op.Halt → op.writesIP = false → k'.ip = k.ip + 1) := by
  obtain ⟨hf, hhalt, hip, _⟩ := step_inv k op k' h
  have hlt := fetch_ip_lt k op hf
  constructor
  · intro he
    have hk := hhalt he
    refine ⟨hk, ?_⟩
    rw [hk, he] at h
    rw [hk]
    exact h
  · intro hne hw
    rw [hip hne hw, Nat.mod_eq_of_lt (by rw [TEXT_SLOTS_eq] at hlt; omega)]

/-- Witness for the amended C4 at a concrete non-Halt, non-IP-writing step. -/
theorem step_ip_advance_amended_witness : kC5s1.ip = kC5.ip + 1 :=
  (step_ip_advance_amended kC5 (Op.MoveRegImm Reg.R0 3) kC5s1 rfl).2 (by decide) (by decide)

/-- Counterexample to C7 as stated: executing `move [768], 42` (data offset
768, one past the data segment) does not silently write through to the
backing buffer — the data-array index is bounds-checked and the access
aborts (a Rust panic, modelled `none`). -/
theorem data_oob_counterexample :
    kOob.fetch = some (Op.MoveMemImm 3 0 42) ∧
    (Op.MoveMemImm 3 0 42).memOffset = some 768 ∧
    ¬ (768 < DATA_SIZE) ∧
    kOob.step = none :=
  ⟨rfl, rfl, by decide, rfl⟩

/-- Claim C7, amended: a data-segment access at an offset at or beyond the
data segment size (`≥ 768`) performed by `step` always fails — the bounds
check of the `[u8; DATA_SIZE]` data array panics — instead of silently
accessing the physical buffer. -/
theorem data_oob_panics_amended (k : Kpu) (op : Op) (off : Nat)
    (hf : k.fetch = some op) (hoff : op.memOffset = some off) (hge : DATA_SIZE ≤ off) :
    k.step = none := by
  unfold Kpu.step
  rw [hf]
  cases op with
  | MoveMemImm hi lo imm =>
    simp only [Op.memOffset, Option.some.injEq] at hoff
    dsimp only
    rw [if_neg (by omega)]
  | MoveMemReg hi lo src =>
    simp only [Op.memOffset, Option.some.injEq] at hoff
    dsimp only
    rw [if_neg (by omega)]
  | MoveRegMem dst hi lo =>
    simp only [Op.memOffset, Option.some.injEq] at hoff
    dsimp only
    rw [if_neg (by omega)]
  | Nop => exact absurd hoff (by simp [Op.memOffset])
  | Halt => exact absurd hoff (by simp [Op.memOffset])
  | MoveRegImm dst imm => exact absurd hoff (by simp [Op.memOffset])
  | MoveRegReg dst src => exact absurd hoff (by simp [Op.memOffset])

/-- Witness for the amended C7 at the concrete offset 768. -/
theorem data_oob_panics_amended_witness : kOob.step = none :=
  data_oob_panics_amended kOob (Op.MoveMemImm 3 0 42) 768 rfl rfl (by decide)

/-- Claim C8: a successful `load` writes the encoded instructions into
consecutive text slots from slot 0, and every text slot at an index at or
beyond the program's length, every data-segment byte, and every register
keep exactly their prior contents. -/
theorem load_success_frame (k : Kpu) (ops : List Op) (h : ops.length * 4 ≤ TEXT_SIZE) :
    (k.load ops).2 = none ∧
    (∀ s : Nat, s < ops.length →
      readSlot (k.load ops).1.mem s = (ops.getD s Op.Nop).bytes) ∧
    (∀ s : Nat, ops.length ≤ s →
      readSlot (k.load ops).1.mem s = readSlot k.mem s) ∧
    (∀ o : Nat, o < DATA_SIZE →
      (k.load ops).1.mem (TEXT_SIZE + o) = k.mem (TEXT_SIZE + o)) ∧
    (k.load ops).1.r0 = k.r0 ∧ (k.load ops).1.r1 = k.r1 ∧ (k.load ops).1.r2 = k.r2 ∧
    (k.load ops).1.r3 = k.r3 ∧ (k.load ops).1.ip = k.ip := by
  have hc : ¬ (ops.length * 4 > TEXT_SIZE) := by omega
  simp only [Kpu.load]
  rw [if_neg hc]
  refine ⟨rfl, ?_, ?_, ?_, rfl, rfl, rfl, rfl, rfl⟩
  · intro s hs
    have hcap : 0 + ops.length ≤ TEXT_SLOTS := by
      rw [TEXT_SLOTS_eq]; rw [TEXT_SIZE_eq] at h; omega
    have := writeOps_slot ops k.mem 0 s hs hcap
    rw [Nat.zero_add] at this
    exact this
  · intro s hsl
    show readSlot (writeOps k.mem 0 ops) s = readSlot k.mem s
    unfold readSlot
    rw [writeOps_frame_hi ops k.mem 0 (OP_SIZE * s) (by simp only [OP_SIZE_eq]; omega),
      writeOps_frame_hi ops k.mem 0 (OP_SIZE * s + 1) (by simp only [OP_SIZE_eq]; omega),
      writeOps_frame_hi ops k.mem 0 (OP_SIZE * s + 2) (by simp only [OP_SIZE_eq]; omega),
      writeOps_frame_hi ops k.mem 0 (OP_SIZE * s + 3) (by simp only [OP_SIZE_eq]; omega)]
  · intro o ho
    show writeOps k.mem 0 ops (TEXT_SIZE + o) = k.mem (TEXT_SIZE + o)
    exact writeOps_frame_hi ops k.mem 0 (TEXT_SIZE + o)
      (by simp only [OP_SIZE_eq, TEXT_SIZE_eq] at *; omega)

/-- Witness for C8 at the concrete `api_test` program. -/
theorem load_success_frame_witness :
    (Kpu.new.load progC5).2 = none ∧
    readSlot (Kpu.new.load progC5).1.mem 0 = (progC5.getD 0 Op.Nop).bytes ∧
    readSlot (Kpu.new.load progC5).1.mem 7 = readSlot Kpu.new.mem 7 ∧
    (Kpu.new.load progC5).1.mem (TEXT_SIZE + 19) = Kpu.new.mem (TEXT_SIZE + 19) :=
  ⟨(load_success_frame Kpu.new progC5 (by decide)).1,
   (load_success_frame Kpu.new progC5 (by decide)).2.1 0 (by decide),
   (load_success_frame Kpu.new progC5 (by decide)).2.2.1 7 (by decide),
   (load_success_frame Kpu.new progC5 (by decide)).2.2.2.1 19 (by decide)⟩

set_option maxRecDepth 40000 in
/-- Counterexample to C9 as stated: the 64-`Nop` program loads successfully
(it exactly fills the text segment) and every one of its 64 steps succeeds,
yet after stepping the `Nop` in the last slot IP equals 64 — no longer a
valid index into the 64 instruction slots. -/
theorem ip_invariant_counterexample :
    (Kpu.new.load (List.replicate 64 Op.Nop)).2 = none ∧
    (stepN kNops 64).map Kpu.ip = some 64 ∧
    ¬ (64 < TEXT_SLOTS) :=
  ⟨rfl, by decide, by decide⟩

/-- Claim C9, amended: `0 ≤ IP < 64` holds in the initial state and after
`reset`; `load` never changes IP; and `step` preserves it provided the
executed instruction is `Halt`, or does not write IP and is not in the last
slot (IP + 1 < 64). (As stated the claim fails: stepping a non-Halt
instruction in slot 63 pushes IP to 64.) -/
theorem ip_invariant_amended :
    Kpu.new.ip < TEXT_SLOTS ∧
    (∀ k : Kpu, k.reset.ip < TEXT_SLOTS) ∧
    (∀ (k : Kpu) (ops : List Op), (k.load ops).1.ip = k.ip) ∧
    (∀ (k : Kpu) (op : Op) (k' : Kpu), k.step = some (op, k') →
      (op = Op.Halt ∨ (op.writesIP = false ∧ k.ip + 1 < TEXT_SLOTS)) →
      k'.ip < TEXT_SLOTS) := by
  refine ⟨by decide, fun k => show (0 : Nat) < TEXT_SLOTS by decide,
    fun k ops => ?_, fun k op k' h hcond => ?_⟩
  · simp only [Kpu.load]
    split <;> rfl
  · obtain ⟨hf, hhalt, hip, _⟩ := step_inv k op k' h
    have hlt := fetch_ip_lt k op hf
    rcases hcond with he | ⟨hw, hlt1⟩
    · rw [hhalt he]; exact hlt
    · by_cases hne : op = Op.Halt
      · rw [hhalt hne]; exact hlt
      · rw [hip hne hw,
          Nat.mod_eq_of_lt (by rw [TEXT_SLOTS_eq] at hlt1; omega)]
        exact hlt1

/-- Witness for the amended C9 at a concrete step away from the last slot. -/
theorem ip_invariant_amended_witness : kC5s1.ip < TEXT_SLOTS :=
  ip_invariant_amended.2.2.2 kC5 (Op.MoveRegImm Reg.R0 3) kC5s1 rfl
    (Or.inr ⟨by decide, by decide⟩)

end Kpu0
